import Mathlib

set_option maxRecDepth 8000

/-!
Verification development for the Code-Review-Helper repository.

The repository is a TypeScript system: an Express backend driving an LLM
tool-calling loop over a sandboxed file tree (two evolving variants of the
same server file exist: `src/backend/src/index.ts`, modelled in namespace
`Backend`, and the later variant `src/unnamed/part_004`, modelled in
namespace `Part4`), plus a SvelteKit frontend whose `ziplab/+server.ts`
list action is modelled in namespace `Zip`.

JavaScript strings are modelled as lists of characters (`Str`), JavaScript
numbers appearing in the clamping helpers as exact rationals (every literal
involved is exactly representable as a double), byte buffers as `List Nat`.
JavaScript regular-expression whitespace (and `String.prototype.trim`) is
modelled by `Char.isWhitespace` (the ASCII whitespace characters); the
case folding of the `/i` regex flag and of `toLowerCase` is modelled by
`Char.toLower`.  Asynchronous external effects (object storage, database,
the LLM SDK) are modelled as explicit function parameters returning
`Except` values; `throw` in the TypeScript source becomes an `Except.error`
result.
-/

/-- JavaScript strings, modelled as their character sequences. -/
abbrev Str := List Char

/-- Convenience coercion from a Lean string literal to the model type. -/
def strLit (s : String) : Str := s.toList

/-- Boolean prefix test, `s.startsWith(pre)` in JavaScript. -/
def strStartsWith (s pre : Str) : Bool := pre.isPrefixOf s

/-- Boolean suffix test, `s.endsWith(suf)` in JavaScript. -/
def strEndsWith (s suf : Str) : Bool := strStartsWith s.reverse suf.reverse

/-- Drop trailing whitespace characters. -/
def dropTrailingWs (s : Str) : Str := (s.reverse.dropWhile Char.isWhitespace).reverse

/-- JavaScript `String.prototype.trim`: strip leading and trailing whitespace. -/
def jsTrim (s : Str) : Str := dropTrailingWs (s.dropWhile Char.isWhitespace)

theorem strStartsWith_append (p t : Str) : strStartsWith (p ++ t) p = true := by
  unfold strStartsWith
  induction p with
  | nil => simp [List.isPrefixOf]
  | cons c cs ih => simp [List.isPrefixOf, ih]

theorem strStartsWith_refl (s : Str) : strStartsWith s s = true := by
  have h := strStartsWith_append s []
  simpa using h

theorem strStartsWith_iff (s pre : Str) :
    strStartsWith s pre = true ↔ ∃ t, s = pre ++ t := by
  unfold strStartsWith
  induction pre generalizing s with
  | nil => simp [List.isPrefixOf]
  | cons c cs ih =>
    cases s with
    | nil => simp [List.isPrefixOf]
    | cons d ds =>
      simp only [List.isPrefixOf, Bool.and_eq_true, beq_iff_eq, ih]
      constructor
      · rintro ⟨hcd, t, ht⟩
        exact ⟨t, by simp [hcd, ht]⟩
      · rintro ⟨t, ht⟩
        simp only [List.cons_append, List.cons.injEq] at ht
        exact ⟨ht.1.symm, t, ht.2⟩

namespace Backend

/--
Model of `validateLocation` from `src/backend/src/index.ts` (lines 103-123).
The source:
guard for a missing or empty location returning the root; the location
returned unchanged when it equals the root or starts with it (plain string
prefix, `location.startsWith(rootLocation)`); otherwise one leading `/` is
stripped from the location, one trailing `/` from the root, and the two are
joined with `/`.  A missing (non-string) argument is modelled as the empty
list, which JavaScript treats the same way here (both are caught by the
`!location` truthiness test).
-/
def validateLocation (location rootLocation : Str) : Str :=
  if location = [] then rootLocation
  else if location = rootLocation then location
  else if strStartsWith location rootLocation then location
  else
    let cleanLocation := if strStartsWith location (strLit "/") then location.drop 1 else location
    let cleanRoot := if strEndsWith rootLocation (strLit "/") then rootLocation.dropLast else rootLocation
    cleanRoot ++ strLit "/" ++ cleanLocation

end Backend

namespace Part4

/--
Model of `isUnknownPath` from `src/unnamed/part_004` (lines 339-341):
true for a missing/non-string value, the empty string, a whitespace-only
string, or a string trimming to the literal `(unknown)` sentinel.
-/
def isUnknownPath : Option Str → Bool
  | none => true
  | some s => s.isEmpty || jsTrim s = [] || jsTrim s = strLit "(unknown)"

/-- Character class `[\\/]` used by the normalisation regexes of part_004. -/
def isSlash (c : Char) : Bool := c = '/' || c = '\\'

/-- The regex replacement removing `[\\/]+$` (all trailing slashes). -/
def dropTrailingSlashes (s : Str) : Str := (s.reverse.dropWhile isSlash).reverse

/--
Model of `validateLocation` from `src/unnamed/part_004` (lines 103-115):
unknown locations are substituted by the root; otherwise leading slashes
are stripped from the location and trailing slashes from the root, the
location is kept when it already equals the cleaned root or starts with
cleaned root plus `/`, and otherwise it is joined under the cleaned root.
-/
def validateLocation (location rootLocation : Str) : Str :=
  if isUnknownPath (some location) then rootLocation
  else
    let cleanLocation := location.dropWhile isSlash
    let cleanRoot := dropTrailingSlashes rootLocation
    if location = cleanRoot || strStartsWith location (cleanRoot ++ strLit "/") then location
    else cleanRoot ++ strLit "/" ++ cleanLocation

/--
Model of `hasRealRoot` from part_004 (lines 329-331): the global root is a
non-null, non-empty string different from the `(unknown)` sentinel.  The
nullable global is modelled as an `Option Str`.
-/
def hasRealRoot : Option Str → Bool
  | none => false
  | some s => !s.isEmpty && s ≠ strLit "(unknown)"

/-- Error values modelling the distinct `throw new Error(...)` sites. -/
inductive ToolError
  | noRoot          -- requireRoot: rootLocation is not set
  | invalidLocation -- listFiles: invalid location (unknown/empty), or missing required arg
  | confinement     -- listFiles: location must start with root
  | missingArg      -- updateFile: fileId/name/location/instructions required
  | couldNotRead    -- updateFile: could not read current file text
  | emptyUpdate     -- updateFile: empty updated content from model
  | uploadUrlFailed -- updateFile: failed to get upload URL
  | uploadFailed    -- updateFile: upload failed
  | toolFailure     -- any other runtime failure of a dispatched tool
  | unknownTool     -- dispatch fell through to the unknown-tool branch
  deriving DecidableEq, Repr

/--
Model of the validation part of `listFilesTool` from part_004
(lines 117-130): `requireRoot()` (throws unless `hasRealRoot`), the
unknown/empty location guard, normalisation through `validateLocation`,
and the extra guard `validatedLocation.startsWith(ORIGINAL_ROOT_LOCATION)`
that throws a confinement error instead of executing the storage call.
Returns the location actually passed to `namespace.getFiles`.
-/
def listFilesValidate (root : Option Str) (location : Option Str) : Except ToolError Str :=
  if hasRealRoot root = false then .error .noRoot
  else if isUnknownPath location then .error .invalidLocation
  else
    match root, location with
    | some rootS, some loc =>
      let validated := validateLocation loc rootS
      if strStartsWith validated rootS then .ok validated
      else .error .confinement
    | _, _ => .error .noRoot

end Part4

/-- Lower-casing of a JavaScript string (`toLowerCase`, ASCII model). -/
def lowerStr (s : Str) : Str := s.map Char.toLower

/--
Model of `TEXT_EXTS` (identical in `index.ts` lines 50-84 and part_004):
the allow-list of file extensions treated as text.
-/
def TEXT_EXTS : List Str :=
  [strLit ".ts", strLit ".tsx", strLit ".js", strLit ".jsx", strLit ".mjs",
   strLit ".cjs", strLit ".json", strLit ".md", strLit ".mdx", strLit ".yml",
   strLit ".yaml", strLit ".toml", strLit ".env", strLit ".gitignore",
   strLit ".dockerignore", strLit ".txt", strLit ".svelte", strLit ".astro",
   strLit ".css", strLit ".scss", strLit ".less", strLit ".html", strLit ".htm",
   strLit ".sql", strLit ".py", strLit ".java", strLit ".go", strLit ".rs",
   strLit ".kt", strLit ".c", strLit ".h", strLit ".cpp", strLit ".hpp"]

/-- JavaScript `String.prototype.split` with a single-character separator. -/
def splitOnChar (sep : Char) : Str → List Str
  | [] => [[]]
  | c :: cs =>
    let r := splitOnChar sep cs
    if c = sep then [] :: r
    else
      match r with
      | [] => [[c]]
      | h :: t => (c :: h) :: t

/--
Model of `isProbablyText` (identical in both backend variants, lines
86-91): split the name on dots, require at least two parts, and test the
lower-cased last part (with a dot prepended) against `TEXT_EXTS`.
-/
def isProbablyText (name : Str) : Bool :=
  let parts := splitOnChar '.' name
  if parts.length < 2 then false
  else
    match parts.getLast? with
    | some lastPart => TEXT_EXTS.contains ('.' :: lowerStr lastPart)
    | none => false

/-- Observable result of the successful read path of `readFileTextTool`. -/
structure ReadResult where
  bytes : Nat
  truncated : Bool
  data : List Nat
  deriving DecidableEq, Repr

/--
Model of the slicing logic of `readFileTextTool` (identical in both
backend variants): `slice = buf.subarray(0, Math.min(buf.length,
maxBytes))`, `bytes = slice.length`, `truncated = buf.length >
slice.length`.  The downloaded body is the byte list `buf`.
-/
def readFileSlice (buf : List Nat) (maxBytes : Nat) : ReadResult :=
  let slice := buf.take (min buf.length maxBytes)
  { bytes := slice.length,
    truncated := decide (slice.length < buf.length),
    data := slice }

/-- Result of `readFileTextTool`: either the skip marker or file content. -/
inductive ReadToolOut
  | skipped (name : Str)
  | content (r : ReadResult)
  deriving DecidableEq, Repr

/--
Model of `readFileTextTool` given the downloaded bytes: non-text names
return the skip marker (not an error); text names return the sliced
content.
-/
def readFileTextTool (name : Str) (buf : List Nat) (maxBytes : Nat) : ReadToolOut :=
  if isProbablyText name = false then .skipped name
  else .content (readFileSlice buf maxBytes)

/--
A JavaScript numeric argument after `Number(v)` coercion: either a finite
double (modelled as an exact rational; every value considered here is
exactly representable) or a non-finite result (NaN or an infinity, which
is what `Number` yields for `undefined` and non-numeric strings).
-/
inductive JsVal
  | num (q : ℚ)
  | nonFinite
  deriving DecidableEq

namespace Backend

/--
Model of `toPosInt` (`index.ts` lines 95-98): `Number.isFinite(n) && n > 0
? Math.floor(n) : fallback`.
-/
def toPosInt (v : JsVal) (fallback : ℤ) : ℤ :=
  match v with
  | .num q => if 0 < q then ⌊q⌋ else fallback
  | .nonFinite => fallback

/-- The limit actually used by `listFilesTool`: `Math.min(100, toPosInt(args.limit, 100))`. -/
def limitUsed (v : JsVal) : ℤ := min 100 (toPosInt v 100)

/-- The page actually used by `listFilesTool`: `toPosInt(args.page, 1)`. -/
def pageUsed (v : JsVal) : ℤ := toPosInt v 1

/--
Model of the markdown wrapper applied to the final text in `index.ts`
(lines 540-545); `nowIso` is the serialised timestamp.
-/
def markdownWrap (finalText nowIso : Str) : Str :=
  strLit "# Code Review Analysis\n        " ++ finalText
  ++ strLit "\n\n        ---\n\n        *Analysis completed at " ++ nowIso ++ strLit "*"

end Backend

namespace Zip

/-- JavaScript `x || d` on a coerced number: falsy (0 or NaN) picks the default. -/
def jsOr (v : JsVal) (d : ℚ) : ℚ :=
  match v with
  | .num q => if q = 0 then d else q
  | .nonFinite => d

/-- Model of `safeLimit` from `ziplab/+server.ts` line 208. -/
def safeLimit (v : JsVal) : ℚ := max 1 (min (jsOr v 100) 100)

/-- Model of `safePage` from `ziplab/+server.ts` line 209. -/
def safePage (v : JsVal) : ℚ := max 1 (jsOr v 1)

end Zip

namespace Review

/--
Matcher for one alternative of the refusal regex: the given words in
sequence, separated by at least one whitespace character (the regex
fragment between words is a greedy but equivalent match here, because the
words start with non-whitespace characters).
-/
def matchWordsAt : List Str → Str → Bool
  | [], _ => true
  | [w], s => strStartsWith s w
  | w :: w2 :: ws, s =>
    strStartsWith s w &&
      (let rest := s.drop w.length
       (match rest with
        | [] => false
        | c :: _ => c.isWhitespace) && matchWordsAt (w2 :: ws) (rest.dropWhile Char.isWhitespace))

/-- Search for a match of `p` at any position of the string. -/
def searchAt (p : Str → Bool) : Str → Bool
  | [] => p []
  | c :: cs => p (c :: cs) || searchAt p cs

/--
Model of the unhelpfulness regex (identical in both backend variants):
matching of the case-insensitive pattern with the three refusal
alternatives against any position of the final text.
-/
def refusalMatch (s : Str) : Bool :=
  let ls := lowerStr s
  searchAt (matchWordsAt [strLit "cannot", strLit "answer"]) ls
  || searchAt (matchWordsAt [strLit "cannot", strLit "fulfill"]) ls
  || searchAt (matchWordsAt [strLit "not", strLit "available", strLit "to", strLit "me"]) ls

/-- The unhelpfulness test: refusal pattern match or fewer than 20 characters. -/
def unhelpful (t : Str) : Bool := refusalMatch t || decide (t.length < 20)

/-- One entry of the `gatheredTexts` accumulator. -/
structure Gathered where
  fileId : Str
  name : Str
  bytes : Nat
  truncated : Bool
  text : Str
  deriving DecidableEq, Repr

/-- JavaScript `Array.prototype.join` with a newline separator. -/
def joinNL (parts : List Str) : Str := List.intercalate (strLit "\n") parts

/-- One line of the fallback file list. -/
def fileLine (g : Gathered) : Str :=
  strLit "- `" ++ g.name ++ strLit "` (" ++ (Nat.repr g.bytes).toList
  ++ strLit " bytes" ++ (if g.truncated then strLit ", truncated" else [])
  ++ strLit ")"

/-- Guidance line shown when no files were read. -/
def noFilesLine : Str :=
  strLit "_No files were read. If you expected files, ensure the structure was saved and I will search again using the tools._"

/-- First next-step guidance line of the fallback. -/
def guidanceFocus : Str :=
  strLit "- Tell me what to focus on (e.g., a specific path or feature), or just say \"explain the project structure\"."

/-- Second next-step guidance line of the fallback. -/
def guidanceSearch : Str :=
  strLit "- I can also search recursively for files by name or pattern (e.g., `**/*.svelte`) and then read them."

/--
Model of the deterministic fallback summary (identical in both backend
variants): the joined markdown lines listing the files read, with the
empty list replaced by guidance text.  The array join with a newline is
written out as the equivalent explicit concatenation.
-/
def fallbackSummary (g : List Gathered) : Str :=
  let filesList := joinNL (g.map fileLine)
  strLit "### What I analyzed" ++ strLit "\n"
  ++ (if filesList = [] then noFilesLine else filesList) ++ strLit "\n"
  ++ strLit "\n"
  ++ strLit "### Next steps" ++ strLit "\n"
  ++ guidanceFocus ++ strLit "\n"
  ++ guidanceSearch

/--
Model of the answering phase (part_004 lines 693-709): the response text
is trimmed, and replaced by the fallback summary when judged unhelpful.
In part_004 the result of this function is exactly the message of the
emitted `analysis_result` event; in `index.ts` the message additionally
passes through `Backend.markdownWrap`.
-/
def answerMessage (respText : Str) (g : List Gathered) : Str :=
  let finalText := jsTrim respText
  if unhelpful finalText then fallbackSummary g else finalText

/-- Concrete gathered list whose fallback summary itself matches the refusal pattern. -/
def refusalFixedPoint : List Gathered :=
  [{ fileId := strLit "f1", name := strLit "cannot answer",
     bytes := 12, truncated := false, text := [] }]

end Review

namespace Part4

/-- Truthiness test of an optional string argument: missing or empty is falsy. -/
def jsFalsy : Option Str → Bool
  | none => true
  | some s => s.isEmpty

/-- The updateFile guard on `instructions`: missing, empty, or whitespace-only. -/
def instrInvalid : Option Str → Bool
  | none => true
  | some s => s.isEmpty || jsTrim s = []

/-- Character class `[a-zA-Z0-9_-]` of the opening-fence regex. -/
def isFenceInfoChar (c : Char) : Bool := c.isAlphanum || c = '_' || c = '-'

/--
Replacement of the regex matching a leading code fence with optional
language tag and its newline; when the regex does not match, the string
is unchanged.
-/
def stripFenceHeader (u : Str) : Str :=
  if strStartsWith u (strLit "```") then
    let rest := (u.drop 3).dropWhile isFenceInfoChar
    match rest with
    | c :: tail => if c = '\n' then tail else u
    | [] => u
  else u

/--
Replacement of the regex matching a trailing newline, three backticks and
trailing whitespace; because the whitespace run contains no backtick, the
single possible match sits at the boundary of the trailing whitespace.
-/
def stripFenceFooter (u : Str) : Str :=
  let t := dropTrailingWs u
  if strEndsWith t (strLit "\n```") then t.take (t.length - 4) else u

/--
Model of the post-processing of the rewrite response in `updateFileTool`
(part_004 lines 237-241): trim, then strip fences and re-trim when the
text starts with a fence.
-/
def computeUpdated (modelText : Str) : Str :=
  let updated := jsTrim modelText
  if strStartsWith updated (strLit "```") then
    jsTrim (stripFenceFooter (stripFenceHeader updated))
  else updated

/-- Arguments of `updateFile` as received from the model. -/
structure UpdateArgsM where
  fileId : Option Str
  name : Option Str
  location : Option Str
  instructions : Option Str
  deriving DecidableEq

/-- Mutating external effects performed by `updateFileTool`, in order. -/
inductive UpdStep
  | deletedOriginal
  | uploadedNew
  deriving DecidableEq, Repr

/-- Successful result of `updateFileTool`. -/
structure UpdResult where
  bytes : Nat
  deriving DecidableEq, Repr

/--
Model of `updateFileTool` (part_004 lines 189-268).  External calls are
parameters: `current` is the outcome of the nested `readFileTextTool`
call (an `Except.error` when that call throws), `modelText` the rewrite
response text, `uploadUrl` the outcome of `getUploadUrl`, and `uploadOk`
the outcome of the PUT request.  The second component records which
mutating effects (delete of the original object, upload of the new body)
were executed before the function returned or threw.  Byte length of the
upload body is modelled as character count.
-/
def updateFileTool (args : UpdateArgsM)
    (current : Except ToolError ReadToolOut)
    (modelText : Str) (uploadUrl : Option Str) (uploadOk : Bool) :
    Except ToolError UpdResult × List UpdStep :=
  if jsFalsy args.fileId then (.error .missingArg, [])
  else if jsFalsy args.name then (.error .missingArg, [])
  else if jsFalsy args.location then (.error .missingArg, [])
  else if instrInvalid args.instructions then (.error .missingArg, [])
  else
    match current with
    | .error e => (.error e, [])
    | .ok (.skipped _) => (.error .couldNotRead, [])
    | .ok (.content _) =>
      let updated := computeUpdated modelText
      if updated = [] then (.error .emptyUpdate, [])
      else
        match uploadUrl with
        | none => (.error .uploadUrlFailed, [.deletedOriginal])
        | some _ =>
          if uploadOk then (.ok { bytes := updated.length }, [.deletedOriginal, .uploadedNew])
          else (.error .uploadFailed, [.deletedOriginal])

end Part4

/-- Status payload of terminal stream events. -/
inductive Status
  | success
  | failed
  deriving DecidableEq, Repr

/--
A tool-call request returned by the LLM.  Only the tool name and the
`location` argument are relevant to the modelled control flow; the other
arguments influence only the oracle outcomes.
-/
structure FnCall where
  name : Str
  location : Option Str
  deriving DecidableEq, Repr

/-- Successful outputs of dispatched tools. -/
inductive ToolOut
  | listing (location : Str)
  | fileText (g : Review.Gathered)
  | skippedFile (name : Str)
  | url (u : Str)
  | updated (bytes : Nat)
  deriving DecidableEq, Repr

/--
The value fed back to the LLM for one call: the tool result, or the error
caught by the per-call handler and recorded as the result (the source
stores `{ error: message }`).
-/
inductive ToolResp
  | ok (r : ToolOut)
  | err (e : Part4.ToolError)
  deriving DecidableEq, Repr

/-- One entry of the running LLM context (the `history` array). -/
inductive HistPart
  | text (t : Str)
  | functionCall (c : FnCall)
  | functionResponse (name : Str) (response : ToolResp)
  deriving DecidableEq, Repr

/-- An LLM response: free text and the list of requested tool calls. -/
structure LLMResponse where
  text : Str
  functionCalls : List FnCall
  deriving DecidableEq, Repr

/-- Categories of `error` event payloads relevant to the claims. -/
inductive ErrMsg
  | validation
  | config
  | noRoot
  | critical
  | tool (e : Part4.ToolError)
  deriving DecidableEq, Repr

/--
Stream events of the review endpoint.  Constructors follow the event
names of the source; `done` models the early terminal event literally
named `done`, and `finished` the terminal event named `finished`.
-/
inductive Event
  | start
  | progressValidated
  | progressStruct
  | folderStructure (found : Bool)
  | historyLoaded
  | messageSaved (role : Str)
  | progressStart
  | progressSeed
  | progressRound (round ops : Nat)
  | progressDone
  | progressContinue
  | toolStarted (name : Str)
  | toolComplete (name : Str)
  | errorEv (e : ErrMsg)
  | done (status : Status)
  | finished (status : Status)
  | analysisResult (message : Str)
  | reviewSummary
  deriving DecidableEq, Repr

/-- Last element of an event list (the event the stream closed with). -/
def lastEvent (evs : List Event) : Option Event := evs.reverse.head?

/-- Outcome of one call after the per-call try/catch. -/
def execResp (exec : FnCall → Except Part4.ToolError ToolOut) (c : FnCall) : ToolResp :=
  match exec c with
  | .ok r => .ok r
  | .error e => .err e

/-- Per-call stream events: a started event, then complete or error. -/
def callEvents (exec : FnCall → Except Part4.ToolError ToolOut) (c : FnCall) : List Event :=
  match exec c with
  | .ok _ => [Event.toolStarted c.name, Event.toolComplete c.name]
  | .error e => [Event.toolStarted c.name, Event.errorEv (.tool e)]

/--
State threaded through the round loop: the LLM context, the
`gatheredTexts` accumulator, the number of dispatched tool executions,
and the events emitted so far.
-/
structure LoopState where
  hist : List HistPart
  gathered : List Review.Gathered
  dispatched : Nat
  events : List Event
  deriving DecidableEq, Repr

/--
One iteration of the inner `for (const fnCall of calls)` loop: dispatch
the call, record the gathered text for a successful readFileText, and
push the call and its result (or caught error) onto the context.
-/
def stepCall (exec : FnCall → Except Part4.ToolError ToolOut)
    (st : LoopState) (c : FnCall) : LoopState :=
  let res := execResp exec c
  { hist := st.hist ++ [HistPart.functionCall c, HistPart.functionResponse c.name res],
    gathered := st.gathered ++
      (if c.name = strLit "readFileText" then
        match res with
        | .ok (.fileText g) => [g]
        | _ => []
       else []),
    dispatched := st.dispatched + 1,
    events := st.events ++ callEvents exec c }

/-- The inner per-round loop over all requested calls. -/
def processCalls (exec : FnCall → Except Part4.ToolError ToolOut)
    (st : LoopState) (calls : List FnCall) : LoopState :=
  calls.foldl (stepCall exec) st

/-- Result of the round loop. -/
structure RoundOut where
  resp : LLMResponse
  rounds : Nat
  st : LoopState

/--
Model of the round loop (`for (let round = 0; round < 20; round++)`,
identical in both backend variants): each iteration reads the calls of
the current response, stops when there are none, otherwise dispatches all
of them and re-invokes the LLM on the extended context.  `fuel` is the
number of remaining iterations, `round` the current index (for the
progress payload); `rounds` counts iterations that dispatched calls.
-/
def roundLoop (gen : List HistPart → LLMResponse)
    (exec : FnCall → Except Part4.ToolError ToolOut) :
    Nat → Nat → LLMResponse → LoopState → RoundOut
  | 0, _, resp, st => ⟨resp, 0, st⟩
  | fuel + 1, round, resp, st =>
    let calls := resp.functionCalls
    let st0 : LoopState :=
      { st with events := st.events ++ [Event.progressRound (round + 1) calls.length] }
    if calls.isEmpty then
      ⟨resp, 0, { st0 with events := st0.events ++ [Event.progressDone] }⟩
    else
      let st1 := processCalls exec st0 calls
      let st2 : LoopState := { st1 with events := st1.events ++ [Event.progressContinue] }
      let out := roundLoop gen exec fuel (round + 1) (gen st2.hist) st2
      ⟨out.resp, out.rounds + 1, out.st⟩

/-- Entry into the round loop with the configured budget of 20 rounds. -/
def toolLoop (gen : List HistPart → LLMResponse)
    (exec : FnCall → Except Part4.ToolError ToolOut)
    (resp : LLMResponse) (st : LoopState) : RoundOut :=
  roundLoop gen exec 20 0 resp st

/--
Inputs and external-world outcomes of one streamed review request.  The
oracles `gen` (LLM), `storage` (`namespace.getFiles` keyed by the listed
location) and `other` (the remaining tools) model the awaited external
calls; `llmOk = false` models a `generateContent` invocation that throws
(reaching the outer catch); database reads and writes are modelled as
succeeding, since their failure paths only add error events and continue.
-/
structure RunInput where
  bodyValid : Bool
  hasApiKey : Bool
  structFound : Bool
  jsonRoot : Option Str
  dbRoot : Option Str
  hasConversation : Bool
  priorCount : Nat
  llmOk : Bool
  gen : List HistPart → LLMResponse
  storage : Str → Except Part4.ToolError ToolOut
  other : FnCall → Except Part4.ToolError ToolOut
  baseHistory : List HistPart
  nowIso : Str

/-- Observable outcome of one streamed request. -/
structure RunResult where
  events : List Event
  toolCallsDispatched : Nat
  root : Option Str
  finalMessage : Option Str
  finalHist : List HistPart

/-- Conversation events emitted when a conversation id was supplied. -/
def convEvents (inp : RunInput) : List Event :=
  if inp.hasConversation then
    (if 0 < inp.priorCount then [Event.historyLoaded] else [])
      ++ [Event.messageSaved (strLit "user")]
  else []

namespace Backend

/--
Model of the tool dispatch of `index.ts`: `listFilesTool` is modelled
exactly (required location; `validateLocation` applied only when the
global root is set, the raw location passed through otherwise); the other
tools are abstracted by the `other` oracle.
-/
def execCall (storage : Str → Except Part4.ToolError ToolOut)
    (other : FnCall → Except Part4.ToolError ToolOut)
    (root : Option Str) (c : FnCall) : Except Part4.ToolError ToolOut :=
  if c.name = strLit "listFiles" then
    match c.location with
    | none => .error .invalidLocation
    | some l =>
      if l = [] then .error .invalidLocation
      else
        storage (match root with
          | some r => validateLocation l r
          | none => l)
  else other c

/--
Root resolution of `index.ts` lines 291-292: the saved structure root
when truthy, else the literal `(unknown)`; the global is set to null when
the result is `(unknown)` — and the run continues either way.
-/
def resolveRoot (jsonRoot : Option Str) : Option Str :=
  let rootLocation :=
    match jsonRoot with
    | some j => if j = [] then strLit "(unknown)" else j
    | none => strLit "(unknown)"
  if rootLocation = strLit "(unknown)" then none else some rootLocation

/--
The loop and answering phases shared by every non-failing path of the
`index.ts` endpoint: run the bounded tool loop, apply the unhelpfulness
fallback, wrap the message in the markdown template, emit the result,
summary, optional persistence and terminal success events.
-/
def loopAndAnswer (inp : RunInput) (root : Option Str)
    (exec : FnCall → Except Part4.ToolError ToolOut)
    (resp : LLMResponse) (hist : List HistPart)
    (evs : List Event) (disp : Nat) : RunResult :=
  let out := toolLoop inp.gen exec resp
    { hist := hist, gathered := [], dispatched := disp, events := evs }
  let message := markdownWrap (Review.answerMessage out.resp.text out.st.gathered) inp.nowIso
  { events := out.st.events
      ++ [Event.analysisResult message, Event.reviewSummary]
      ++ (if inp.hasConversation then [Event.messageSaved (strLit "assistant")] else [])
      ++ [Event.finished .success],
    toolCallsDispatched := out.st.dispatched,
    root := root,
    finalMessage := some message,
    finalHist := out.st.hist }

/--
Model of the `/ai/review/stream` endpoint of `index.ts` (lines 234-594):
validation and configuration failures emit an error and a `done` event
with status failed; there is no abort on a missing root; the first LLM
response is seeded with a root listing when it contains no calls and a
root is set (a throwing seed listing reaches the outer catch); then the
round loop runs and the answer is emitted, ending with `finished`.
-/
def runStream (inp : RunInput) : RunResult :=
  let ev0 : List Event := [Event.start]
  if inp.bodyValid = false then
    { events := ev0 ++ [Event.errorEv .validation, Event.done .failed],
      toolCallsDispatched := 0, root := none, finalMessage := none, finalHist := [] }
  else
    let ev1 := ev0 ++ [Event.progressValidated]
    if inp.hasApiKey = false then
      { events := ev1 ++ [Event.errorEv .config, Event.done .failed],
        toolCallsDispatched := 0, root := none, finalMessage := none, finalHist := [] }
    else
      let ev2 := ev1 ++ [Event.progressStruct, Event.folderStructure inp.structFound]
      let root := resolveRoot inp.jsonRoot
      let ev3 := ev2 ++ convEvents inp ++ [Event.progressStart]
      if inp.llmOk = false then
        { events := ev3 ++ [Event.errorEv .critical, Event.finished .failed],
          toolCallsDispatched := 0, root := root, finalMessage := none, finalHist := [] }
      else
        let exec := execCall inp.storage inp.other root
        let resp0 := inp.gen inp.baseHistory
        if resp0.functionCalls.isEmpty && root.isSome then
          let seedCall : FnCall := { name := strLit "listFiles", location := root }
          match exec seedCall with
          | .error _ =>
            { events := ev3 ++ [Event.progressSeed, Event.errorEv .critical, Event.finished .failed],
              toolCallsDispatched := 1, root := root, finalMessage := none, finalHist := [] }
          | .ok outSeed =>
            let hist1 := inp.baseHistory
              ++ [HistPart.functionCall seedCall,
                  HistPart.functionResponse (strLit "listFiles") (ToolResp.ok outSeed)]
            loopAndAnswer inp root exec (inp.gen hist1) hist1
              (ev3 ++ [Event.progressSeed]) 1
        else
          loopAndAnswer inp root exec resp0 inp.baseHistory ev3 0

end Backend

namespace Part4

/--
Model of the tool dispatch of part_004: `listFilesTool` is modelled
exactly through `listFilesValidate`; the other tools are abstracted by
the `other` oracle.
-/
def execCall (storage : Str → Except ToolError ToolOut)
    (other : FnCall → Except ToolError ToolOut)
    (root : Option Str) (c : FnCall) : Except ToolError ToolOut :=
  if c.name = strLit "listFiles" then
    match listFilesValidate root c.location with
    | .error e => .error e
    | .ok v => storage v
  else other c

/--
Root resolution of part_004 (lines 399-431): prefer a sound JSON root
from the saved structure, fall back to the stored root column, and null
out anything unknown.
-/
def resolveRoot (jsonRoot dbRoot : Option Str) : Option Str :=
  let r :=
    if isUnknownPath jsonRoot = false then jsonRoot
    else if isUnknownPath dbRoot = false then dbRoot
    else none
  if isUnknownPath r = false then r else none

/-- The nudge message about the editing feature pushed onto the context. -/
def editNudge : HistPart :=
  HistPart.text (strLit "EDITING FEATURE:\nIf I ask to change/fix/update a code file, you MUST:\n1) Locate the file via listFiles,\n2) Read it using readFileText,\n3) Call updateFile(\x7b fileId, name, location, instructions \x7d) with a clear, concise instruction string.\nReturn to analysis after the update if needed.")

/--
The loop and answering phases of the part_004 endpoint: as in `index.ts`
but the emitted message is the final text itself (no markdown wrapper).
-/
def loopAndAnswer (inp : RunInput) (root : Option Str)
    (exec : FnCall → Except ToolError ToolOut)
    (resp : LLMResponse) (hist : List HistPart)
    (evs : List Event) (disp : Nat) : RunResult :=
  let out := toolLoop inp.gen exec resp
    { hist := hist, gathered := [], dispatched := disp, events := evs }
  let message := Review.answerMessage out.resp.text out.st.gathered
  { events := out.st.events
      ++ [Event.analysisResult message, Event.reviewSummary]
      ++ (if inp.hasConversation then [Event.messageSaved (strLit "assistant")] else [])
      ++ [Event.finished .success],
    toolCallsDispatched := out.st.dispatched,
    root := root,
    finalMessage := some message,
    finalHist := out.st.hist }

/--
Model of the `/ai/review/stream` endpoint of part_004 (lines 345-758):
validation failure emits an error and a `done` failed event, a missing
API key emits only the `done` failed event, an unusable resolved root
aborts with an error and a `finished` failed event before any tool call,
and otherwise the seeded round loop runs as in `index.ts`, ending with a
`finished` event (failed from the outer catch, success otherwise).
-/
def runStream (inp : RunInput) : RunResult :=
  let ev0 : List Event := [Event.start]
  if inp.bodyValid = false then
    { events := ev0 ++ [Event.errorEv .validation, Event.done .failed],
      toolCallsDispatched := 0, root := none, finalMessage := none, finalHist := [] }
  else if inp.hasApiKey = false then
    { events := ev0 ++ [Event.done .failed],
      toolCallsDispatched := 0, root := none, finalMessage := none, finalHist := [] }
  else
    let ev1 := ev0 ++ [Event.progressStruct, Event.folderStructure inp.structFound]
    let root := resolveRoot inp.jsonRoot inp.dbRoot
    if hasRealRoot root = false then
      { events := ev1 ++ [Event.errorEv .noRoot, Event.finished .failed],
        toolCallsDispatched := 0, root := root, finalMessage := none, finalHist := [] }
    else
      let ev2 := ev1 ++ convEvents inp ++ [Event.progressStart]
      if inp.llmOk = false then
        { events := ev2 ++ [Event.errorEv .critical, Event.finished .failed],
          toolCallsDispatched := 0, root := root, finalMessage := none, finalHist := [] }
      else
        let hist0 := inp.baseHistory ++ [editNudge]
        let exec := execCall inp.storage inp.other root
        let resp0 := inp.gen hist0
        if resp0.functionCalls.isEmpty && hasRealRoot root then
          let seedCall : FnCall := { name := strLit "listFiles", location := root }
          match exec seedCall with
          | .error _ =>
            { events := ev2 ++ [Event.progressSeed, Event.errorEv .critical, Event.finished .failed],
              toolCallsDispatched := 1, root := root, finalMessage := none, finalHist := [] }
          | .ok outSeed =>
            let hist1 := hist0
              ++ [HistPart.functionCall seedCall,
                  HistPart.functionResponse (strLit "listFiles") (ToolResp.ok outSeed)]
            loopAndAnswer inp root exec (inp.gen hist1) hist1
              (ev2 ++ [Event.progressSeed]) 1
        else
          loopAndAnswer inp root exec resp0 hist0 ev2 0

end Part4

/-- A constant LLM oracle that requests one listFiles call every turn. -/
def genAlways : List HistPart → LLMResponse :=
  fun _ => { text := [], functionCalls := [{ name := strLit "listFiles", location := some (strLit "x") }] }

/-- A tool oracle on which every dispatch fails. -/
def execFail : FnCall → Except Part4.ToolError ToolOut :=
  fun _ => .error .toolFailure

/-- The empty loop state. -/
def emptyLoopState : LoopState :=
  { hist := [], gathered := [], dispatched := 0, events := [] }

/-- A run request with an invalid body (fails zod validation). -/
def runInputInvalid : RunInput :=
  { bodyValid := false, hasApiKey := true, structFound := false, jsonRoot := none,
    dbRoot := none, hasConversation := false, priorCount := 0, llmOk := true,
    gen := fun _ => { text := [], functionCalls := [] },
    storage := fun l => .ok (.listing l),
    other := fun _ => .error .toolFailure,
    baseHistory := [], nowIso := [] }

/--
A run request with no saved root in which the LLM asks for `/etc` every
round and the storage oracle lists whatever location it is given.
-/
def runInputNoRootLoop : RunInput :=
  { bodyValid := true, hasApiKey := true, structFound := false, jsonRoot := none,
    dbRoot := none, hasConversation := false, priorCount := 0, llmOk := true,
    gen := fun _ => { text := [], functionCalls := [{ name := strLit "listFiles", location := some (strLit "/etc") }] },
    storage := fun l => .ok (.listing l),
    other := fun _ => .error .toolFailure,
    baseHistory := [], nowIso := [] }

/-- Three distinct tool calls used to witness the all-calls-per-round law. -/
def callW1 : FnCall := { name := strLit "listFiles", location := some (strLit "CodeZips/abc") }

/-- Second witness call. -/
def callW2 : FnCall := { name := strLit "readFileText", location := none }

/-- Third witness call. -/
def callW3 : FnCall := { name := strLit "getDownloadUrl", location := none }

/-- A valid run request on which the first LLM invocation throws. -/
def runInputLlmFails : RunInput :=
  { bodyValid := true, hasApiKey := true, structFound := true,
    jsonRoot := some (strLit "CodeZips/abc"), dbRoot := none,
    hasConversation := false, priorCount := 0, llmOk := false,
    gen := fun _ => { text := [], functionCalls := [] },
    storage := fun l => .ok (.listing l),
    other := fun _ => .error .toolFailure,
    baseHistory := [], nowIso := [] }

-- ===================== DEFINITIONS END / THEOREMS BEGIN =====================

theorem backend_root_prefixed (L R : Str) :
    strStartsWith (Backend.validateLocation L R) R = true := by
  unfold Backend.validateLocation
  by_cases h0 : L = []
  · simp [h0, strStartsWith_refl]
  · by_cases h1 : L = R
    · simp [h0, h1, strStartsWith_refl]
    · by_cases h2 : strStartsWith L R = true
      · simp [h0, h1, h2]
      · by_cases h3 : strEndsWith R (strLit "/") = true
        · rcases (strStartsWith_iff R.reverse (strLit "/").reverse).1 h3 with ⟨u, hu⟩
          have hR : R = u.reverse ++ ['/'] := by
            have := congrArg List.reverse hu
            simpa [strLit] using this
          have hdrop : R.dropLast = u.reverse := by
            rw [hR]; exact List.dropLast_concat
          simp only [h0, h1, h2, h3, if_false, if_true]
          rw [hdrop]
          have : u.reverse ++ strLit "/" ++ (if strStartsWith L (strLit "/") = true then L.drop 1 else L)
              = R ++ (if strStartsWith L (strLit "/") = true then L.drop 1 else L) := by
            rw [hR]; simp [strLit, List.append_assoc]
          rw [this]
          exact strStartsWith_append R _
        · simp only [h0, h1, h2, h3, if_false]
          rw [List.append_assoc]
          exact strStartsWith_append R _

theorem part4_confined (R : Str) (hR : Part4.dropTrailingSlashes R = R)
    (loc : Option Str) (v : Str)
    (h : Part4.listFilesValidate (some R) loc = Except.ok v) :
    v = R ∨ strStartsWith v (R ++ strLit "/") = true := by
  unfold Part4.listFilesValidate at h
  by_cases hroot : Part4.hasRealRoot (some R) = false
  · simp [hroot] at h
  · rw [if_neg hroot] at h
    by_cases hunk : Part4.isUnknownPath loc = true
    · simp [hunk] at h
    · rw [if_neg hunk] at h
      cases loc with
      | none => exact absurd rfl hunk
      | some L =>
        dsimp only at h
        by_cases hg : strStartsWith (Part4.validateLocation L R) R = true
        · rw [if_pos hg] at h
          have hv : v = Part4.validateLocation L R := by
            cases h; rfl
          subst hv
          unfold Part4.validateLocation
          rw [if_neg (by exact fun hc => hunk hc)]
          rw [hR]
          by_cases hL : L = R
          · simp [hL]
          · by_cases hpre : strStartsWith L (R ++ strLit "/") = true
            · simp [hL, hpre]
            · right
              simp only [hL, hpre, decide_False, Bool.false_or]
              rw [if_neg (by simp)]
              exact strStartsWith_append (R ++ strLit "/") _
        · rw [if_neg hg] at h
          exact absurd h (by simp)

/--
Claim C1 (amended), counterexample part.  The claim states that the
normalisation returns the root itself or the root followed by the path
separator, and otherwise fails with a confinement error.  In the
`index.ts` variant this is false: with root `CodeZips/abc`, the sibling
candidate `CodeZips/abcdef` passes the plain `startsWith` test and is
returned unchanged — it is not the root, does not start with root plus
separator, and no error is raised.
-/
theorem claim_C1_counterexample :
    Backend.validateLocation (strLit "CodeZips/abcdef") (strLit "CodeZips/abc")
      = strLit "CodeZips/abcdef"
    ∧ strLit "CodeZips/abcdef" ≠ strLit "CodeZips/abc"
    ∧ strStartsWith (strLit "CodeZips/abcdef") (strLit "CodeZips/abc" ++ strLit "/") = false := by
  refine ⟨by decide, by decide, by decide⟩

/--
Claim C1 (amended): the `index.ts` variant of `validateLocation` always
returns a location that has the root as a plain string prefix (it has no
failure path at all); in the part_004 variant, whenever the root carries
no trailing path separator, every location accepted by the listFiles
validation is either the root itself or starts with root plus `/`, and
every other candidate is rejected with an error before the storage call
executes.
-/
theorem claim_C1_amended :
    ∀ L R : Str,
      strStartsWith (Backend.validateLocation L R) R = true
      ∧ (Part4.dropTrailingSlashes R = R →
          ∀ (loc : Option Str) (v : Str),
            Part4.listFilesValidate (some R) loc = Except.ok v →
            v = R ∨ strStartsWith v (R ++ strLit "/") = true) :=
  fun L R =>
    ⟨backend_root_prefixed L R, fun hR loc v h => part4_confined R hR loc v h⟩

/--
Claim C1 witness: on the concrete escape attempt `../../etc` against root
`CodeZips/abc`, the part_004 validation accepts `CodeZips/abc/../../etc`,
which does start with the root plus separator.
-/
theorem claim_C1_witness :
    Part4.dropTrailingSlashes (strLit "CodeZips/abc") = strLit "CodeZips/abc"
    ∧ Part4.listFilesValidate (some (strLit "CodeZips/abc")) (some (strLit "../../etc"))
        = Except.ok (strLit "CodeZips/abc/../../etc")
    ∧ (strLit "CodeZips/abc/../../etc" = strLit "CodeZips/abc"
        ∨ strStartsWith (strLit "CodeZips/abc/../../etc")
            (strLit "CodeZips/abc" ++ strLit "/") = true) :=
  ⟨by decide, by rfl,
    (claim_C1_amended (strLit "../../etc") (strLit "CodeZips/abc")).2 (by decide)
      (some (strLit "../../etc")) (strLit "CodeZips/abc/../../etc") (by rfl)⟩

/--
Claim C2 (amended), counterexample part.  The claim states that an empty
or `(unknown)` candidate is substituted by the root and the operation
proceeds.  In `index.ts` the `(unknown)` sentinel is not substituted but
joined under the root, and in part_004 the listFiles tool rejects an
empty candidate with an error before normalisation instead of proceeding
against the root.
-/
theorem claim_C2_counterexample :
    Backend.validateLocation (strLit "(unknown)") (strLit "CodeZips/abc")
      = strLit "CodeZips/abc/(unknown)"
    ∧ strLit "CodeZips/abc/(unknown)" ≠ strLit "CodeZips/abc"
    ∧ Part4.listFilesValidate (some (strLit "CodeZips/abc")) (some [])
        = Except.error Part4.ToolError.invalidLocation := by
  refine ⟨by decide, by decide, by rfl⟩

/--
Claim C2 (amended): the part_004 `validateLocation` substitutes the root
for every empty or unknown candidate; the `index.ts` variant substitutes
the root only for an empty or missing candidate; and the part_004
listFiles tool fails with an error on empty or unknown candidates rather
than proceeding against the root.
-/
theorem claim_C2_amended :
    ∀ (L R : Str) (loc : Option Str),
      (Part4.isUnknownPath (some L) = true → Part4.validateLocation L R = R)
      ∧ Backend.validateLocation [] R = R
      ∧ (Part4.isUnknownPath loc = true →
          ∃ e, Part4.listFilesValidate (some R) loc = Except.error e) := by
  intro L R loc
  refine ⟨fun h => ?_, ?_, fun h => ?_⟩
  · unfold Part4.validateLocation
    rw [if_pos h]
  · unfold Backend.validateLocation
    rw [if_pos rfl]
  · unfold Part4.listFilesValidate
    by_cases hroot : Part4.hasRealRoot (some R) = false
    · exact ⟨Part4.ToolError.noRoot, by rw [if_pos hroot]⟩
    · exact ⟨Part4.ToolError.invalidLocation, by rw [if_neg hroot, if_pos h]⟩

/--
Claim C2 witness: at the sentinel `(unknown)` with root `CodeZips/abc`,
the part_004 normalisation substitutes the root, the `index.ts`
normalisation substitutes the root for the empty candidate, and the
part_004 listFiles tool rejects the empty candidate.
-/
theorem claim_C2_witness :
    Part4.isUnknownPath (some (strLit "(unknown)")) = true
    ∧ Part4.validateLocation (strLit "(unknown)") (strLit "CodeZips/abc")
        = strLit "CodeZips/abc"
    ∧ Backend.validateLocation [] (strLit "CodeZips/abc") = strLit "CodeZips/abc"
    ∧ ∃ e, Part4.listFilesValidate (some (strLit "CodeZips/abc")) (some [])
        = Except.error e := by
  have h := claim_C2_amended (strLit "(unknown)") (strLit "CodeZips/abc") (some [])
  exact ⟨by decide, h.1 (by decide), h.2.1, h.2.2 (by decide)⟩

theorem fallback_min_length (g : List Review.Gathered) :
    20 ≤ (Review.fallbackSummary g).length := by
  unfold Review.fallbackSummary
  have h20 : (strLit "### What I analyzed" ++ strLit "\n").length = 20 := by decide
  simp only [List.append_assoc, List.length_append] at h20 ⊢
  omega

/--
Claim C5 (amended), counterexample part.  The claim states that the
message of the emitted result event never equals the refusal text
verbatim.  There is a fixed point: when the final LLM answer is exactly
the fallback summary of the session (which for a gathered file named
`cannot answer` itself matches the refusal pattern), the code replaces the
answer by that same fallback, and the emitted message equals the
refusal-matching answer verbatim.
-/
theorem claim_C5_counterexample :
    Review.refusalMatch (Review.fallbackSummary Review.refusalFixedPoint) = true
    ∧ Review.answerMessage (Review.fallbackSummary Review.refusalFixedPoint)
        Review.refusalFixedPoint
      = Review.fallbackSummary Review.refusalFixedPoint := by
  refine ⟨by decide, ?_⟩
  unfold Review.answerMessage
  have htrim : jsTrim (Review.fallbackSummary Review.refusalFixedPoint)
      = Review.fallbackSummary Review.refusalFixedPoint := by decide
  rw [htrim]
  rw [if_pos (by decide)]

/--
Claim C5 (amended): whenever the trimmed final answer is judged unhelpful
(refusal-pattern match or fewer than 20 characters), the emitted message
is the deterministic fallback summary of the files read; consequently the
message differs from the refusal text whenever the text is short, and
whenever the fallback summary itself is refusal-free while the text
matches the refusal pattern — it can coincide with the final answer only
in the fixed point exhibited by the counterexample.
-/
theorem claim_C5_amended :
    ∀ (t : Str) (g : List Review.Gathered),
      Review.unhelpful (jsTrim t) = true →
      Review.answerMessage t g = Review.fallbackSummary g
      ∧ ((jsTrim t).length < 20 → Review.answerMessage t g ≠ jsTrim t)
      ∧ (Review.refusalMatch (Review.fallbackSummary g) = false →
          Review.refusalMatch (jsTrim t) = true →
          Review.answerMessage t g ≠ jsTrim t) := by
  intro t g h
  have hmsg : Review.answerMessage t g = Review.fallbackSummary g := by
    unfold Review.answerMessage
    rw [if_pos h]
  refine ⟨hmsg, ?_, ?_⟩
  · intro hlen heq
    have h20 := fallback_min_length g
    rw [hmsg] at heq
    rw [heq] at h20
    omega
  · intro hf hr heq
    rw [hmsg] at heq
    rw [← heq] at hr
    rw [hf] at hr
    exact Bool.false_ne_true hr

/--
Claim C5 witness: the refusal `I cannot answer this` is judged unhelpful,
the emitted message is the (refusal-free) fallback summary of an empty
session, and it differs from the refusal text.
-/
theorem claim_C5_witness :
    Review.unhelpful (jsTrim (strLit "I cannot answer this")) = true
    ∧ Review.answerMessage (strLit "I cannot answer this") []
        = Review.fallbackSummary []
    ∧ Review.refusalMatch (Review.fallbackSummary []) = false
    ∧ Review.answerMessage (strLit "I cannot answer this") []
        ≠ jsTrim (strLit "I cannot answer this") := by
  have h := claim_C5_amended (strLit "I cannot answer this") [] (by decide)
  exact ⟨by decide, h.1, by decide, h.2.2 (by decide) (by decide)⟩

/--
Claim C6: the read tool is a pure function of the source bytes and the
byte cap — equal inputs give identical results; the reported byte count is
the minimum of source size and cap; and the truncation flag is set exactly
when the source is larger than the cap (in particular it is false whenever
the cap is at least the source size).
-/
theorem claim_C6 :
    ∀ (b1 b2 : List Nat) (m : Nat), b1 = b2 →
      readFileSlice b1 m = readFileSlice b2 m
      ∧ (readFileSlice b1 m).bytes = min b1.length m
      ∧ (readFileSlice b1 m).truncated = decide (m < b1.length)
      ∧ (b1.length ≤ m → (readFileSlice b1 m).truncated = false) := by
  intro b1 b2 m h
  subst h
  refine ⟨rfl, ?_, ?_, ?_⟩
  · simp only [readFileSlice, List.length_take]
    omega
  · simp only [readFileSlice, List.length_take]
    rw [decide_eq_decide]
    omega
  · intro hle
    simp only [readFileSlice, List.length_take]
    rw [decide_eq_false_iff_not]
    omega

/--
Claim C6 witness: reading three bytes with cap 2 reports 2 bytes and
truncation; with cap 5 it reports no truncation.
-/
theorem claim_C6_witness :
    (readFileSlice [0, 1, 2] 2).bytes = min (List.length [0, 1, 2]) 2
    ∧ (readFileSlice [0, 1, 2] 2).truncated = decide (2 < List.length [0, 1, 2])
    ∧ (readFileSlice [0, 1, 2] 5).truncated = false := by
  have h2 := claim_C6 [0, 1, 2] [0, 1, 2] 2 rfl
  have h5 := claim_C6 [0, 1, 2] [0, 1, 2] 5 rfl
  exact ⟨h2.2.1, h2.2.2.1, h5.2.2.2 (by decide)⟩

/--
Claim C8 (code bug demonstration): the backend clamp helper `toPosInt`
floors positive fractional inputs, so a limit of 0.5 yields 0 — outside
the claimed interval [1,100] — and a page of 0.5 yields 0 < 1; in the
ziplab variant a page of 2.5 is clamped but kept fractional, hence not an
integer.
-/
theorem claim_C8_bug :
    Backend.limitUsed (JsVal.num (1 / 2)) = 0
    ∧ Backend.pageUsed (JsVal.num (1 / 2)) = 0
    ∧ Zip.safePage (JsVal.num (5 / 2)) = 5 / 2
    ∧ ¬ ∃ n : ℤ, (n : ℚ) = Zip.safePage (JsVal.num (5 / 2)) := by
  have hfloor : ⌊(1 / 2 : ℚ)⌋ = 0 := by
    rw [Int.floor_eq_zero_iff]
    constructor <;> norm_num
  have hsafe : Zip.safePage (JsVal.num (5 / 2)) = 5 / 2 := by
    unfold Zip.safePage Zip.jsOr
    dsimp only
    rw [if_neg (by norm_num)]
    rw [max_eq_right (by norm_num)]
  refine ⟨?_, ?_, hsafe, ?_⟩
  · unfold Backend.limitUsed Backend.toPosInt
    dsimp only
    rw [if_pos (by norm_num), hfloor]
    rfl
  · unfold Backend.pageUsed Backend.toPosInt
    dsimp only
    rw [if_pos (by norm_num), hfloor]
  · rintro ⟨n, hn⟩
    rw [hsafe] at hn
    have h2n : (2 : ℚ) * (n : ℚ) = 5 := by rw [hn]; norm_num
    have h2z : (2 * n : ℤ) = 5 := by exact_mod_cast h2n
    omega

/--
Claim C10: in every updateFile invocation that reaches the nested rewrite
call (arguments valid, current content readable) and whose rewrite
response strips to empty text, the tool fails with the empty-update error
and performs neither the delete of the original object nor any upload —
the stored file is unchanged on this error path.
-/
theorem claim_C10 :
    ∀ (args : Part4.UpdateArgsM) (current : Except Part4.ToolError ReadToolOut)
      (mt : Str) (url : Option Str) (ok : Bool),
      Part4.jsFalsy args.fileId = false →
      Part4.jsFalsy args.name = false →
      Part4.jsFalsy args.location = false →
      Part4.instrInvalid args.instructions = false →
      (∃ r, current = Except.ok (ReadToolOut.content r)) →
      Part4.computeUpdated mt = [] →
      Part4.updateFileTool args current mt url ok
        = (Except.error Part4.ToolError.emptyUpdate, []) := by
  intro args current mt url ok h1 h2 h3 h4 hcur hm
  rcases hcur with ⟨r, hr⟩
  subst hr
  unfold Part4.updateFileTool
  rw [if_neg (by simp [h1]), if_neg (by simp [h2]), if_neg (by simp [h3]),
      if_neg (by simp [h4])]
  dsimp only
  rw [if_pos (by simp [hm])]

/--
Claim C10 witness: a rewrite response consisting only of an empty fenced
code block strips to empty text, and the tool returns the empty-update
error with no delete and no upload.
-/
theorem claim_C10_witness :
    Part4.computeUpdated (strLit "```ts\n\n```") = []
    ∧ Part4.updateFileTool
        { fileId := some (strLit "f1"), name := some (strLit "a.ts"),
          location := some (strLit "CodeZips/abc"),
          instructions := some (strLit "fix the import") }
        (Except.ok (ReadToolOut.content (readFileSlice [104, 105] 1000)))
        (strLit "```ts\n\n```") (some (strLit "https: u")) true
        = (Except.error Part4.ToolError.emptyUpdate, []) := by
  refine ⟨by decide, ?_⟩
  exact claim_C10 _ _ _ _ _ (by decide) (by decide) (by decide) (by decide)
    ⟨readFileSlice [104, 105] 1000, rfl⟩ (by decide)

theorem lastEvent_append_gen (l m : List Event) (b : Event)
    (h : lastEvent m = some b) : lastEvent (l ++ m) = some b := by
  unfold lastEvent at *
  rw [List.reverse_append]
  cases hm : m.reverse with
  | nil => rw [hm] at h; simp at h
  | cons x xs =>
    rw [hm] at h
    simpa using h

theorem roundLoop_rounds_le (gen : List HistPart → LLMResponse)
    (exec : FnCall → Except Part4.ToolError ToolOut) :
    ∀ (fuel round : Nat) (resp : LLMResponse) (st : LoopState),
      (roundLoop gen exec fuel round resp st).rounds ≤ fuel := by
  intro fuel
  induction fuel with
  | zero => intro round resp st; simp [roundLoop]
  | succ n ih =>
    intro round resp st
    unfold roundLoop
    by_cases hc : resp.functionCalls.isEmpty
    · simp [hc]
    · simp only [hc, Bool.false_eq_true, if_false]
      exact Nat.succ_le_succ (ih _ _ _)

theorem roundLoop_rounds_eq (gen : List HistPart → LLMResponse)
    (exec : FnCall → Except Part4.ToolError ToolOut)
    (hgen : ∀ h, (gen h).functionCalls ≠ []) :
    ∀ (fuel round : Nat) (resp : LLMResponse) (st : LoopState),
      resp.functionCalls ≠ [] →
      (roundLoop gen exec fuel round resp st).rounds = fuel := by
  intro fuel
  induction fuel with
  | zero => intro round resp st _; simp [roundLoop]
  | succ n ih =>
    intro round resp st hne
    unfold roundLoop
    have hc : resp.functionCalls.isEmpty = false := by
      cases hcalls : resp.functionCalls with
      | nil => exact absurd hcalls hne
      | cons a as => simp [hcalls]
    simp only [hc, Bool.false_eq_true, if_false]
    rw [ih _ _ _ (hgen _)]

theorem processCalls_hist (exec : FnCall → Except Part4.ToolError ToolOut) :
    ∀ (calls : List FnCall) (st : LoopState),
      (processCalls exec st calls).hist
        = st.hist ++ calls.flatMap (fun c =>
            [HistPart.functionCall c, HistPart.functionResponse c.name (execResp exec c)]) := by
  intro calls
  induction calls with
  | nil => intro st; simp [processCalls]
  | cons c cs ih =>
    intro st
    have hstep : processCalls exec st (c :: cs) = processCalls exec (stepCall exec st c) cs := by
      simp [processCalls]
    rw [hstep, ih (stepCall exec st c)]
    simp [stepCall, List.append_assoc]

theorem part4_loopAnswer_last (inp : RunInput) (root : Option Str)
    (exec : FnCall → Except Part4.ToolError ToolOut) (resp : LLMResponse)
    (hist : List HistPart) (evs : List Event) (disp : Nat) :
    lastEvent (Part4.loopAndAnswer inp root exec resp hist evs disp).events
      = some (Event.finished Status.success) := by
  unfold Part4.loopAndAnswer
  dsimp only
  exact lastEvent_append_gen _ _ _ rfl

theorem part4_terminal (inp : RunInput)
    (hb : inp.bodyValid = true) (ha : inp.hasApiKey = true) :
    ∃ st, lastEvent (Part4.runStream inp).events = some (Event.finished st) := by
  unfold Part4.runStream
  dsimp only
  rw [if_neg (by simp [hb]), if_neg (by simp [ha])]
  by_cases hroot : Part4.hasRealRoot (Part4.resolveRoot inp.jsonRoot inp.dbRoot) = false
  · rw [if_pos hroot]
    exact ⟨Status.failed, lastEvent_append_gen _ _ _ rfl⟩
  · rw [if_neg hroot]
    by_cases hl : inp.llmOk = false
    · rw [if_pos hl]
      exact ⟨Status.failed, lastEvent_append_gen _ _ _ rfl⟩
    · rw [if_neg hl]
      by_cases hs : ((inp.gen (inp.baseHistory ++ [Part4.editNudge])).functionCalls.isEmpty
          && Part4.hasRealRoot (Part4.resolveRoot inp.jsonRoot inp.dbRoot)) = true
      · rw [if_pos hs]
        cases hexec : Part4.execCall inp.storage inp.other
            (Part4.resolveRoot inp.jsonRoot inp.dbRoot)
            { name := strLit "listFiles", location := Part4.resolveRoot inp.jsonRoot inp.dbRoot } with
        | error e =>
          exact ⟨Status.failed, lastEvent_append_gen _ _ _ rfl⟩
        | ok o =>
          exact ⟨Status.success, part4_loopAnswer_last _ _ _ _ _ _ _⟩
      · rw [if_neg hs]
        exact ⟨Status.success, part4_loopAnswer_last _ _ _ _ _ _ _⟩

theorem backend_loopAnswer_last (inp : RunInput) (root : Option Str)
    (exec : FnCall → Except Part4.ToolError ToolOut) (resp : LLMResponse)
    (hist : List HistPart) (evs : List Event) (disp : Nat) :
    lastEvent (Backend.loopAndAnswer inp root exec resp hist evs disp).events
      = some (Event.finished Status.success) := by
  unfold Backend.loopAndAnswer
  dsimp only
  exact lastEvent_append_gen _ _ _ rfl

theorem part4_dispatch_needs_root (inp : RunInput) :
    (Part4.runStream inp).toolCallsDispatched ≠ 0 →
    Part4.hasRealRoot (Part4.runStream inp).root = true := by
  unfold Part4.runStream
  dsimp only
  by_cases hb : inp.bodyValid = false
  · rw [if_pos hb]; intro hd; exact absurd rfl hd
  · rw [if_neg hb]
    by_cases ha : inp.hasApiKey = false
    · rw [if_pos ha]; intro hd; exact absurd rfl hd
    · rw [if_neg ha]
      by_cases hroot : Part4.hasRealRoot (Part4.resolveRoot inp.jsonRoot inp.dbRoot) = false
      · rw [if_pos hroot]; intro hd; exact absurd rfl hd
      · rw [if_neg hroot]
        have hroott : Part4.hasRealRoot (Part4.resolveRoot inp.jsonRoot inp.dbRoot) = true := by
          cases h : Part4.hasRealRoot (Part4.resolveRoot inp.jsonRoot inp.dbRoot)
          · exact absurd h hroot
          · rfl
        by_cases hl : inp.llmOk = false
        · rw [if_pos hl]; intro _; exact hroott
        · rw [if_neg hl]
          by_cases hs : ((inp.gen (inp.baseHistory ++ [Part4.editNudge])).functionCalls.isEmpty
              && Part4.hasRealRoot (Part4.resolveRoot inp.jsonRoot inp.dbRoot)) = true
          · rw [if_pos hs]
            cases hexec : Part4.execCall inp.storage inp.other
                (Part4.resolveRoot inp.jsonRoot inp.dbRoot)
                { name := strLit "listFiles", location := Part4.resolveRoot inp.jsonRoot inp.dbRoot } with
            | error e => intro _; exact hroott
            | ok o => intro _; exact hroott
          · rw [if_neg hs]
            intro _
            exact hroott

theorem part4_abort (inp : RunInput) (hb : inp.bodyValid = true) (ha : inp.hasApiKey = true)
    (hroot : Part4.hasRealRoot (Part4.resolveRoot inp.jsonRoot inp.dbRoot) = false) :
    (Part4.runStream inp).toolCallsDispatched = 0
    ∧ lastEvent (Part4.runStream inp).events = some (Event.finished Status.failed) := by
  unfold Part4.runStream
  dsimp only
  rw [if_neg (by simp [hb]), if_neg (by simp [ha]), if_pos hroot]
  exact ⟨rfl, lastEvent_append_gen _ _ _ rfl⟩

/--
Claim C3: the tool-calling loop (identical in both backend variants)
performs at most the configured 20 rounds; when every LLM response keeps
requesting tool calls it performs exactly 20 rounds and still returns, and
the part_004 endpoint afterwards reaches the terminal-event phase: for
every run past validation and configuration, the stream ends with a
`finished` event.
-/
theorem claim_C3 :
    ∀ (gen : List HistPart → LLMResponse) (exec : FnCall → Except Part4.ToolError ToolOut)
      (resp : LLMResponse) (st : LoopState) (inp : RunInput),
      (toolLoop gen exec resp st).rounds ≤ 20
      ∧ ((∀ h, (gen h).functionCalls ≠ []) → resp.functionCalls ≠ [] →
          (toolLoop gen exec resp st).rounds = 20)
      ∧ (inp.bodyValid = true → inp.hasApiKey = true →
          ∃ stt, lastEvent (Part4.runStream inp).events = some (Event.finished stt)) := by
  intro gen exec resp st inp
  exact ⟨roundLoop_rounds_le gen exec 20 0 resp st,
         fun hgen hne => roundLoop_rounds_eq gen exec hgen 20 0 resp st hne,
         fun hb ha => part4_terminal inp hb ha⟩

/--
Claim C3 witness: with an LLM oracle that requests a tool call on every
turn, the loop runs exactly 20 rounds and terminates.
-/
theorem claim_C3_witness :
    (toolLoop genAlways execFail (genAlways []) emptyLoopState).rounds = 20 :=
  (claim_C3 genAlways execFail (genAlways []) emptyLoopState runInputInvalid).2.1
    (fun _ => by simp [genAlways]) (by simp [genAlways])

/--
Claim C4: the per-round dispatch appends, for every one of the k requested
calls, the call and its result-or-error pair to the running context —
the processed context is exactly the old context followed by the k pairs
in order, every requested call has its response recorded, and the loop
re-invokes the LLM on precisely that extended context before the next
round.
-/
theorem claim_C4 :
    ∀ (exec : FnCall → Except Part4.ToolError ToolOut) (st : LoopState) (calls : List FnCall),
      (processCalls exec st calls).hist
        = st.hist ++ calls.flatMap (fun c =>
            [HistPart.functionCall c, HistPart.functionResponse c.name (execResp exec c)])
      ∧ (∀ c ∈ calls,
          HistPart.functionResponse c.name (execResp exec c) ∈ (processCalls exec st calls).hist)
      ∧ (∀ (gen : List HistPart → LLMResponse) (fuel round : Nat) (resp : LLMResponse),
          resp.functionCalls = calls → calls ≠ [] →
          ∃ st2 : LoopState,
            st2.hist = st.hist ++ calls.flatMap (fun c =>
              [HistPart.functionCall c, HistPart.functionResponse c.name (execResp exec c)])
            ∧ roundLoop gen exec (fuel + 1) round resp st
                = ⟨(roundLoop gen exec fuel (round + 1) (gen st2.hist) st2).resp,
                   (roundLoop gen exec fuel (round + 1) (gen st2.hist) st2).rounds + 1,
                   (roundLoop gen exec fuel (round + 1) (gen st2.hist) st2).st⟩) := by
  intro exec st calls
  refine ⟨processCalls_hist exec calls st, ?_, ?_⟩
  · intro c hc
    rw [processCalls_hist]
    refine List.mem_append.2 (Or.inr ?_)
    exact List.mem_flatMap.2 ⟨c, hc, by simp⟩
  · intro gen fuel round resp hresp hne
    have hc : resp.functionCalls.isEmpty = false := by
      rw [hresp]
      cases calls with
      | nil => exact absurd rfl hne
      | cons a as => rfl
    refine ⟨{ processCalls exec
          { st with events := st.events ++ [Event.progressRound (round + 1) resp.functionCalls.length] }
          resp.functionCalls with
        events := (processCalls exec
          { st with events := st.events ++ [Event.progressRound (round + 1) resp.functionCalls.length] }
          resp.functionCalls).events ++ [Event.progressContinue] }, ?_, ?_⟩
    · dsimp only
      rw [processCalls_hist, hresp]
    · conv_lhs => unfold roundLoop
      simp only [hc, Bool.false_eq_true, if_false]
  -- the recursive call takes the state extended by the trailing progress
  -- event, whose history component is unchanged

/--
Claim C4 witness: a round with three requested calls records all three
call/response pairs, in order, in the context handed to the next LLM
invocation.
-/
theorem claim_C4_witness :
    (processCalls execFail emptyLoopState [callW1, callW2, callW3]).hist
      = [HistPart.functionCall callW1,
         HistPart.functionResponse callW1.name (ToolResp.err Part4.ToolError.toolFailure),
         HistPart.functionCall callW2,
         HistPart.functionResponse callW2.name (ToolResp.err Part4.ToolError.toolFailure),
         HistPart.functionCall callW3,
         HistPart.functionResponse callW3.name (ToolResp.err Part4.ToolError.toolFailure)] := by
  rw [(claim_C4 execFail emptyLoopState [callW1, callW2, callW3]).1]
  decide

/--
Claim C7 (amended), counterexample part.  In the `index.ts` variant a run
whose saved structure yields no usable root does not abort: the loop
executes the requested listFiles calls with the unvalidated location, so
the storage is listed at the raw `/etc` location with no confinement
root - the agent executes tools without a usable confinement root.
-/
theorem claim_C7_counterexample :
    (Backend.runStream runInputNoRootLoop).root = none
    ∧ (Backend.runStream runInputNoRootLoop).toolCallsDispatched = 20
    ∧ HistPart.functionResponse (strLit "listFiles") (ToolResp.ok (ToolOut.listing (strLit "/etc")))
        ∈ (Backend.runStream runInputNoRootLoop).finalHist := by
  refine ⟨rfl, by decide, by decide⟩

/--
Claim C7 (amended): in the part_004 variant, any run that dispatches a
tool call has a usable (non-empty, non-sentinel) confinement root, and a
run past validation and configuration whose resolved root is unusable
aborts with a failed `finished` event and zero tool dispatches; the
`index.ts` variant lacks the abort and violates the claim.
-/
theorem claim_C7_amended :
    ∀ inp : RunInput,
      ((Part4.runStream inp).toolCallsDispatched ≠ 0 →
        Part4.hasRealRoot (Part4.runStream inp).root = true)
      ∧ (inp.bodyValid = true → inp.hasApiKey = true →
          Part4.hasRealRoot (Part4.resolveRoot inp.jsonRoot inp.dbRoot) = false →
          (Part4.runStream inp).toolCallsDispatched = 0
          ∧ lastEvent (Part4.runStream inp).events = some (Event.finished Status.failed)) := by
  intro inp
  exact ⟨part4_dispatch_needs_root inp, fun hb ha hroot => part4_abort inp hb ha hroot⟩

/--
Claim C7 witness: on the rootless request, the part_004 endpoint aborts
with a failed `finished` event and dispatches no tool call.
-/
theorem claim_C7_witness :
    Part4.hasRealRoot (Part4.resolveRoot none none) = false
    ∧ (Part4.runStream runInputNoRootLoop).toolCallsDispatched = 0
    ∧ lastEvent (Part4.runStream runInputNoRootLoop).events
        = some (Event.finished Status.failed) := by
  have h := (claim_C7_amended runInputNoRootLoop).2 rfl rfl (by decide)
  exact ⟨by decide, h.1, h.2⟩

/--
Claim C9 (amended), counterexample part.  The claim says every
terminating path emits a terminal `finished` event, but the
request-validation failure path closes the stream after an event named
`done` (status failed), which is not a `finished` event.
-/
theorem claim_C9_counterexample :
    lastEvent (Backend.runStream runInputInvalid).events = some (Event.done Status.failed)
    ∧ some (Event.done Status.failed) ≠ some (Event.finished Status.failed)
    ∧ some (Event.done Status.failed) ≠ some (Event.finished Status.success) := by
  refine ⟨rfl, by decide, by decide⟩

/--
Claim C9 (amended): every terminating path of the streaming review
endpoint emits a terminal status-bearing event and closes: the
request-validation and missing-configuration failures emit a `done` event
with status failed, and every other path (critical errors and success)
emits a `finished` event carrying success or failed.
-/
theorem claim_C9_amended :
    ∀ inp : RunInput,
      ((inp.bodyValid = false ∨ inp.hasApiKey = false) →
        lastEvent (Backend.runStream inp).events = some (Event.done Status.failed))
      ∧ (inp.bodyValid = true → inp.hasApiKey = true →
        ∃ st, lastEvent (Backend.runStream inp).events = some (Event.finished st)) := by
  intro inp
  constructor
  · intro hor
    unfold Backend.runStream
    dsimp only
    by_cases hb : inp.bodyValid = false
    · rw [if_pos hb]
      exact lastEvent_append_gen _ _ _ rfl
    · have ha : inp.hasApiKey = false := by
        rcases hor with h | h
        · exact absurd h hb
        · exact h
      rw [if_neg hb, if_pos ha]
      exact lastEvent_append_gen _ _ _ rfl
  · intro hb ha
    unfold Backend.runStream
    dsimp only
    rw [if_neg (by simp [hb]), if_neg (by simp [ha])]
    by_cases hl : inp.llmOk = false
    · rw [if_pos hl]
      exact ⟨Status.failed, lastEvent_append_gen _ _ _ rfl⟩
    · rw [if_neg hl]
      by_cases hs : ((inp.gen inp.baseHistory).functionCalls.isEmpty
          && (Backend.resolveRoot inp.jsonRoot).isSome) = true
      · rw [if_pos hs]
        cases hexec : Backend.execCall inp.storage inp.other
            (Backend.resolveRoot inp.jsonRoot)
            { name := strLit "listFiles", location := Backend.resolveRoot inp.jsonRoot } with
        | error e =>
          exact ⟨Status.failed, lastEvent_append_gen _ _ _ rfl⟩
        | ok o =>
          exact ⟨Status.success, backend_loopAnswer_last _ _ _ _ _ _ _⟩
      · rw [if_neg hs]
        exact ⟨Status.success, backend_loopAnswer_last _ _ _ _ _ _ _⟩

/--
Claim C9 witness: the invalid-body run closes after a `done` failed
event, and a run on which the LLM invocation throws closes after a
`finished` failed event.
-/
theorem claim_C9_witness :
    lastEvent (Backend.runStream runInputInvalid).events = some (Event.done Status.failed)
    ∧ lastEvent (Backend.runStream runInputLlmFails).events
        = some (Event.finished Status.failed) :=
  ⟨(claim_C9_amended runInputInvalid).1 (Or.inl rfl), by rfl⟩
